import Mathlib

/-!
Verification of the moving-average crossover backtesting core
(`backtester.py`): signal generation, single-instrument backtest with
trade reconstruction, equal-weight portfolio aggregation, and the
performance-metrics calculator.

Modelling conventions:
* prices and returns are rationals (`ℚ`); a pandas `NaN` entry is `none`
  in an `Option` type;
* a pandas `Series` over row positions is a `List`, with functions
  `… At (t : ℕ)` giving the value at row `t`;
* pandas comparisons involving `NaN` evaluate to `False` (`optGT`), and
  arithmetic involving `NaN` yields `NaN` (`optMul`);
* `rolling(w).mean()` is `none` until the window is filled
  (`rollingMeanAt`), matching the default `min_periods = window`.
-/

/-- Source `_cfg` in the source decodes the base64 constant
`eyJhIjoyLCJiIjoxMH0=`, which is the JSON text holding a = 2 and
b = 10; it returns the pair (a, b) = (short window, long window). -/
def _cfg : ℕ × ℕ := (2, 10)

/-- pandas elementwise `>` on possibly-NaN values: any comparison with
`NaN` is `False`. -/
def optGT : Option ℚ → Option ℚ → Bool
  | some a, some b => decide (b < a)
  | _, _ => false

/-- pandas multiplication on possibly-NaN values: `NaN` propagates. -/
def optMul : Option ℚ → Option ℚ → Option ℚ
  | some a, some b => some (a * b)
  | _, _ => none

/-- Source `series.rolling(w).mean()` at row `t`: mean of the `w` values ending
at `t`, `NaN` (`none`) while fewer than `w` observations are available
(and outside the series). -/
def rollingMeanAt (w : ℕ) (ps : List ℚ) (t : ℕ) : Option ℚ :=
  if t < ps.length ∧ w ≤ t + 1 then
    some ((((ps.drop (t + 1 - w)).take w).sum) / (w : ℚ))
  else none

/-- Source `_c = (_s > _l).astype(int)` at row `t`: the comparison is `False`
(hence the integer 0) whenever either rolling average is `NaN`. -/
def sigAt (ps : List ℚ) (t : ℕ) : ℤ :=
  if optGT (rollingMeanAt _cfg.1 ps t) (rollingMeanAt _cfg.2 ps t) then 1 else 0

/-- Source `df["position"] = _c.shift(1)`: `NaN` at row 0, else the previous
row's signal. -/
def posAt (ps : List ℚ) (t : ℕ) : Option ℤ :=
  match t with
  | 0 => none
  | t' + 1 => some (sigAt ps t')

/-- Source `df["buy"] = (_c == 1) & (_c.shift(1) == 0)`; at row 0 the shifted
value is `NaN` and `NaN == 0` is `False`. -/
def buyAt (ps : List ℚ) (t : ℕ) : Bool :=
  (sigAt ps t == 1) && (match t with
    | 0 => false
    | t' + 1 => sigAt ps t' == 0)

/-- Source `df["sell"] = (_c == 0) & (_c.shift(1) == 1)`. -/
def sellAt (ps : List ℚ) (t : ℕ) : Bool :=
  (sigAt ps t == 0) && (match t with
    | 0 => false
    | t' + 1 => sigAt ps t' == 1)

/-- One row of the DataFrame produced by `calculate_signals`: the price
column, the two rolling averages `_x`/`_y`, and the derived
`signal`/`position`/`buy`/`sell` columns. `signal` is an integer column
with no missing entries (it comes from `.astype(int)`); `position` has a
missing entry at row 0 (from `.shift(1)`). -/
structure SignalRow where
  price : ℚ
  _x : Option ℚ
  _y : Option ℚ
  signal : ℤ
  position : Option ℤ
  buy : Bool
  sell : Bool
deriving Repr, DecidableEq, Inhabited

/-- Row `t` of the `calculate_signals` DataFrame. -/
def mkRow (ps : List ℚ) (t : ℕ) : SignalRow :=
  { price := ps.getD t 0
    _x := rollingMeanAt _cfg.1 ps t
    _y := rollingMeanAt _cfg.2 ps t
    signal := sigAt ps t
    position := posAt ps t
    buy := buyAt ps t
    sell := sellAt ps t }

/-- Source `calculate_signals(monthly_df)`: one `SignalRow` per input row. -/
def calculate_signals (ps : List ℚ) : List SignalRow :=
  (List.range ps.length).map (mkRow ps)

/-- Source `df["monthly_return"] = df[col].pct_change()` at row `t`: `NaN` at
row 0, else `price[t]/price[t-1] - 1`.  (pandas yields `±inf` when the
previous price is 0; the claims only exercise this at nonzero prices,
where rational division agrees.) -/
def mrAt (ps : List ℚ) (t : ℕ) : Option ℚ :=
  match t with
  | 0 => none
  | t' + 1 => some (ps.getD (t' + 1) 0 / ps.getD t' 0 - 1)

/-- Source `df["strategy_return"] = df["position"] * df["monthly_return"]` at
row `t` (`NaN` propagates through the product). -/
def srAt (ps : List ℚ) (t : ℕ) : Option ℚ :=
  optMul ((posAt ps t).map fun z => (z : ℚ)) (mrAt ps t)

/-- The `strategy_return` column. -/
def strategyReturns (ps : List ℚ) : List (Option ℚ) :=
  (List.range ps.length).map (srAt ps)

/-- Running products with start accumulator `acc` (`Series.cumprod`). -/
def cumprodAux (acc : ℚ) : List ℚ → List ℚ
  | [] => []
  | x :: xs => (acc * x) :: cumprodAux (acc * x) xs

/-- Source `Series.cumprod()`. -/
def cumprod (l : List ℚ) : List ℚ := cumprodAux 1 l

/-- Source `(1 + series.fillna(0)).cumprod()`: the cumulative-growth series of
a possibly-NaN return series, used by both backtesters. -/
def cumulativeOf (rs : List (Option ℚ)) : List ℚ :=
  cumprod (rs.map fun r => 1 + r.getD 0)

/-- Round to the nearest integer, ties to even — Python's `round` on an
exactly represented value.  (Binary floating-point representation error,
which can perturb Python's result on ties, is not modelled.) -/
def roundHalfEven (q : ℚ) : ℤ :=
  let f := ⌊q⌋
  let r := q - f
  if r < 1 / 2 then f
  else if 1 / 2 < r then f + 1
  else if f % 2 = 0 then f else f + 1

/-- Python `round(x, 2)`. -/
def round2 (q : ℚ) : ℚ := (roundHalfEven (q * 100) : ℚ) / 100

/-- One element of the `trades` list built by `backtest_stock`.  Field
names transliterate the Korean keys: `buyIdx`/`sellIdx` are the 매수일/
매도일 row timestamps, `buyPrice`/`sellPrice` the 매수가/매도가, and
`pnl` the 수익률(%) entry `round(_pnl, 2)`. -/
structure Trade where
  buyIdx : ℕ
  sellIdx : ℕ
  buyPrice : ℚ
  sellPrice : ℚ
  pnl : ℚ
deriving Repr, DecidableEq

/-- The trade-reconstruction loop of `backtest_stock`: iterate over the
rows (row index `i`), maintaining the in-position flag `_in` and the
entry date/price `_ed`/`_ep`.  A `buy` row while flat opens a position;
a `sell` row while in position appends a closed `Trade`.  The initial
`_ed`/`_ep` are `None` in Python and only ever read after being set; the
model passes 0 as the (never-read-before-set) placeholder. -/
def tradeScan (i : ℕ) (_in : Bool) (_ed : ℕ) (_ep : ℚ) :
    List SignalRow → List Trade
  | [] => []
  | row :: rest =>
    if row.buy && !_in then
      tradeScan (i + 1) true i row.price rest
    else if row.sell && _in then
      { buyIdx := _ed, sellIdx := i, buyPrice := _ep, sellPrice := row.price,
        pnl := round2 ((row.price - _ep) / _ep * 100) } ::
        tradeScan (i + 1) false _ed _ep rest
    else
      tradeScan (i + 1) _in _ed _ep rest

/-- The value returned by `backtest_stock`. -/
structure BacktestResult where
  signals_df : List SignalRow
  returns : List (Option ℚ)
  cumulative : List ℚ
  trades : List Trade
deriving Repr, DecidableEq

/-- Source `backtest_stock(monthly_df)`: signals, gated strategy returns,
cumulative growth, and the reconstructed list of closed trades.  Note
the source has no minimum-length guard here: the computation runs on
whatever series it is given. -/
def backtest_stock (ps : List ℚ) : BacktestResult :=
  let df := calculate_signals ps
  let sr := strategyReturns ps
  { signals_df := df
    returns := sr
    cumulative := cumulativeOf sr
    trades := tradeScan 0 false 0 0 df }

/-! ## Portfolio backtester

An instrument's input series is a list of (timestamp, closing price)
pairs with strictly increasing timestamps; a dict of DataFrames is an
association list keyed by instrument name. -/

/-- A date-indexed monthly price series. -/
abbrev PriceSeries := List (ℕ × ℚ)

/-- The instruments that survive
`if mdf.empty or len(mdf) < 11: continue`. -/
def qualifying (d : List (String × PriceSeries)) :
    List (String × PriceSeries) :=
  d.filter fun i => 11 ≤ i.2.length

/-- Source `_as[name] = df["position"]`: the position column keyed by the
instrument's own timestamps. -/
def instPositions (s : PriceSeries) : List (ℕ × Option ℚ) :=
  List.zip (s.map Prod.fst)
    ((List.range s.length).map fun t =>
      (posAt (s.map Prod.snd) t).map fun z => (z : ℚ))

/-- Source `_ar[name] = df["_mr"]` where `df["_mr"] = df[col].pct_change()`. -/
def inst_mr (s : PriceSeries) : List (ℕ × Option ℚ) :=
  List.zip (s.map Prod.fst)
    ((List.range s.length).map (mrAt (s.map Prod.snd)))

/-- Value of a labelled possibly-NaN series at timestamp `τ`: `NaN`
(`none`) when the timestamp is absent from the series' index. -/
def lookupVal (l : List (ℕ × Option ℚ)) (τ : ℕ) : Option ℚ :=
  (l.lookup τ).join

/-- Insertion into a sorted list of timestamps. -/
def insertSorted (x : ℕ) : List ℕ → List ℕ
  | [] => [x]
  | y :: ys => if x ≤ y then x :: y :: ys else y :: insertSorted x ys

/-- Ascending sort of a timestamp list. -/
def sortNat (l : List ℕ) : List ℕ := l.foldr insertSorted []

/-- Source `cidx = sdf.index.intersection(rdf.index)`: building `sdf` and
`rdf` from the same dict keys unions the qualifying instruments' own
indices (missing timestamps become `NaN` cells), and the two unions
coincide, so the intersection is exactly the sorted union of the
qualifying instruments' timestamps. -/
def portIndex (d : List (String × PriceSeries)) : List ℕ :=
  sortNat ((qualifying d).foldr (fun i acc => i.2.map Prod.fst ++ acc) []).dedup

/-- One cell of `wr = (sdf * rdf).fillna(0)`: position × raw return,
with any `NaN` (undefined position or return, or absent timestamp)
becoming 0. -/
def wrCell (i : String × PriceSeries) (τ : ℕ) : ℚ :=
  (optMul (lookupVal (instPositions i.2) τ) (lookupVal (inst_mr i.2) τ)).getD 0

/-- Row sum `wr.sum(axis=1)` at timestamp `τ`. -/
def portTermSum (d : List (String × PriceSeries)) (τ : ℕ) : ℚ :=
  ((qualifying d).map fun i => wrCell i τ).sum

/-- The value returned by `backtest_portfolio`; each series is keyed by
timestamp. -/
structure PortfolioResult where
  portfolio_returns : List (ℕ × ℚ)
  portfolio_cumulative : List (ℕ × ℚ)
  active_counts : List (ℕ × ℚ)
deriving Repr, DecidableEq

/-- Source `backtest_portfolio(all_monthly_data)` with its fixed divisor
`N = 30`: equal-weight aggregate return per common timestamp, its
cumulative product, and the per-timestamp count of active positions
(`sdf.sum(axis=1)`, which skips `NaN`). -/
def backtest_portfolio (d : List (String × PriceSeries)) : PortfolioResult :=
  let N : ℚ := 30
  if (qualifying d).isEmpty then ⟨[], [], []⟩
  else
    let idx := portIndex d
    let rets := idx.map fun τ => (τ, portTermSum d τ / N)
    { portfolio_returns := rets
      portfolio_cumulative := List.zip idx (cumprod (rets.map fun p => 1 + p.2))
      active_counts := idx.map fun τ =>
        (τ, ((qualifying d).map fun i =>
          (lookupVal (instPositions i.2) τ).getD 0).sum) }

/-! ## Metrics calculator -/

/-- Source `series.dropna()`: the defined entries, keeping their row labels. -/
def dropna (l : List (Option ℚ)) : List (ℕ × ℚ) :=
  l.enum.filterMap fun p => p.2.map fun v => (p.1, v)

/-- Source `Series.mean()` (only used on nonempty series — the empty case is
guarded out upstream in `calculate_metrics`). -/
def mean (l : List ℚ) : ℚ := l.sum / (l.length : ℚ)

/-- pandas `Series.var()` with the default `ddof = 1`: `NaN` when fewer
than two observations. -/
def sampleVar (l : List ℚ) : Option ℚ :=
  if l.length ≤ 1 then none
  else some ((l.map fun x => (x - mean l) ^ 2).sum / ((l.length : ℚ) - 1))

/-- Cumulative growth `(1 + returns).cumprod()` of a (dropna'd) return
series. -/
def cumOf (l : List ℚ) : List ℚ := cumprod (l.map fun r => 1 + r)

/-- Running maxima continuing from accumulator `m`. -/
def cummaxAux (m : ℚ) : List ℚ → List ℚ
  | [] => []
  | x :: xs => max m x :: cummaxAux (max m x) xs

/-- Source `Series.cummax()`. -/
def cummax : List ℚ → List ℚ
  | [] => []
  | x :: xs => x :: cummaxAux x xs

/-- Source `drawdown = (cumulative - peak) / peak`, elementwise.  pandas turns
the `0/0` cell into `NaN`, modelled by `none`; a `peak = 0,
cumulative ≠ 0` cell (which pandas would make `±inf`) cannot occur,
since a running peak of 0 over a cumulative-product series forces the
current cumulative value to be 0. -/
def drawdownList (l : List ℚ) : List (Option ℚ) :=
  List.zipWith (fun c p => if p = 0 then none else some ((c - p) / p))
    (cumOf l) (cummax (cumOf l))

/-- NaN-skipping binary minimum (`Series.min` behaviour). -/
def optMin : Option ℚ → Option ℚ → Option ℚ
  | some a, some b => some (min a b)
  | some a, none => some a
  | none, o => o

/-- Source `Series.min()`: minimum of the defined entries, `NaN` when there is
none. -/
def listMin (l : List (Option ℚ)) : Option ℚ := l.foldl optMin none

/-- Source `mdd = drawdown.min()`. -/
def mddOf (l : List ℚ) : Option ℚ := listMin (drawdownList l)

/-- The value of the Sharpe-like expression
`(returns.mean() / returns.std()) * np.sqrt(12) if returns.std() > 0
else 0`.  `zero` is the `else` branch (sample std `NaN` or 0); `ratio m
v` denotes the real number `(m / sqrt v) * sqrt 12`, where `m` is the
mean and `v` the sample variance (`std = sqrt v`, and `std > 0 ↔
v > 0`).  The square roots are irrational and kept symbolic; the claims
constrain only the branch taken and the rational data `m`, `v`. -/
inductive SharpeVal where
  | zero
  | ratio (mean variance : ℚ)
deriving Repr, DecidableEq

/-- The Sharpe-like ratio of a (dropna'd) return series. -/
def sharpeOf (l : List ℚ) : SharpeVal :=
  match sampleVar l with
  | some v => if 0 < v then .ratio (mean l) v else .zero
  | none => .zero

/-- The CAGR value: `pow c y` denotes the real number `c ^ (1/y) - 1`
(the fractional power is irrational in general and kept symbolic);
`zero` is the guarded fallback branch. -/
inductive CagrVal where
  | zero
  | pow (base years : ℚ)
deriving Repr, DecidableEq

/-- Source `cagr = cumulative.iloc[-1] ** (1/n_years) - 1 if n_years > 0 and
cumulative.iloc[-1] > 0 else 0`. -/
def cagrOf (l : List ℚ) : CagrVal :=
  let cl := (cumOf l).getLast?.getD 0
  let n_years : ℚ := (l.length : ℚ) / 12
  if 0 < n_years ∧ 0 < cl then .pow cl n_years else .zero

/-- Source `win_rate = positive_months / total_months * 100 if total_months >
0 else 0`. -/
def winRate (l : List ℚ) : ℚ :=
  let positive_months : ℚ := ((l.filter fun x => 0 < x).length : ℚ)
  let total_months : ℚ := ((l.filter fun x => x ≠ 0).length : ℚ)
  if 0 < total_months then positive_months / total_months * 100 else 0

/-- Source `avg_win = returns[returns > 0].mean() if (returns > 0).any() else
0`. -/
def avgWin (l : List ℚ) : ℚ :=
  if (l.filter fun x => 0 < x) ≠ [] then mean (l.filter fun x => 0 < x) else 0

/-- Source `avg_loss = abs(returns[returns < 0].mean()) if (returns < 0).any()
else 1`. -/
def avgLoss (l : List ℚ) : ℚ :=
  if (l.filter fun x => x < 0) ≠ [] then |mean (l.filter fun x => x < 0)|
  else 1

/-- Source `profit_loss_ratio = avg_win / avg_loss if avg_loss > 0 else 0`. -/
def profitLossRatio (l : List ℚ) : ℚ :=
  if 0 < avgLoss l then avgWin l / avgLoss l else 0

/-- Python `round(x, 1)`. -/
def round1 (q : ℚ) : ℚ := (roundHalfEven (q * 10) : ℚ) / 10

/-- The four benchmark-prefixed entries of the metrics dict. -/
structure BmMetrics where
  cumRetPct : ℚ
  cagr : CagrVal
  mddPct : Option ℚ
  sharpe : SharpeVal
deriving Repr, DecidableEq

/-- The metrics dict built by `calculate_metrics` when the input has at
least one defined return.  Field ↔ key: `cumRetPct` = 누적수익률(%),
`cagr` = CAGR(%), `mddPct` = MDD(%) (`none` when the drawdown series is
all-NaN), `sharpe` = 샤프비율, `winRatePct` = 승률(%), `plRatio` =
손익비; `benchmark` holds the benchmark-prefixed keys when present.
`cagr` and `sharpe` are symbolic (their rounding is not modelled); the
rational entries carry the source's `round(..., 2)` / `round(..., 1)`.
-/
structure Metrics where
  cumRetPct : ℚ
  cagr : CagrVal
  mddPct : Option ℚ
  sharpe : SharpeVal
  winRatePct : ℚ
  plRatio : ℚ
  benchmark : Option BmMetrics
deriving Repr, DecidableEq

/-- Source `calculate_metrics(returns_series, benchmark_series)`: `none`
models the empty dict `{}` returned when the dropna'd series is empty;
otherwise the populated dict.  Benchmark metrics are computed over the
intersection of the strategy's and the benchmark's defined row labels,
and omitted when that intersection is empty. -/
def calculate_metrics (returns_series : List (Option ℚ))
    (benchmark_series : Option (List (Option ℚ))) : Option Metrics :=
  let rlab := dropna returns_series
  let returns := rlab.map Prod.snd
  if returns.length = 0 then none
  else
    let total_return := (cumOf returns).getLast?.getD 0 - 1
    some
      { cumRetPct := round2 (total_return * 100)
        cagr := cagrOf returns
        mddPct := (mddOf returns).map fun m => round2 (m * 100)
        sharpe := sharpeOf returns
        winRatePct := round1 (winRate returns)
        plRatio := round2 (profitLossRatio returns)
        benchmark :=
          match benchmark_series with
          | none => none
          | some b =>
            let bmlab := dropna b
            let common := (rlab.map Prod.fst).filter
              fun k => k ∈ bmlab.map Prod.fst
            if common.length = 0 then none
            else
              let bm_common := common.filterMap fun k => bmlab.lookup k
              some
                { cumRetPct :=
                    round2 (((cumOf bm_common).getLast?.getD 0 - 1) * 100)
                  cagr := cagrOf bm_common
                  mddPct := (mddOf bm_common).map fun m => round2 (m * 100)
                  sharpe := sharpeOf bm_common } }

/-! ## General helper lemmas -/

theorem mapRange_getD {α : Type} (f : ℕ → α) (n t : ℕ) (d : α) (h : t < n) :
    ((List.range n).map f).getD t d = f t := by
  rw [List.getD_eq_getElem?_getD, List.getElem?_map, List.getElem?_range h]
  rfl

theorem getD_map_of_lt {α β : Type} (f : α → β) (l : List α) (i : ℕ)
    (dβ : β) (dα : α) (h : i < l.length) :
    (l.map f).getD i dβ = f (l.getD i dα) := by
  rw [List.getD_eq_getElem?_getD, List.getD_eq_getElem?_getD,
    List.getElem?_map, List.getElem?_eq_getElem h]
  rfl

theorem lookup_mem {α β : Type} [BEq α] [LawfulBEq α] {l : List (α × β)}
    {k : α} {v : β} (h : l.lookup k = some v) : (k, v) ∈ l := by
  induction l with
  | nil => cases h
  | cons p ps ih =>
    obtain ⟨k', v'⟩ := p
    rw [List.lookup] at h
    by_cases hk : k = k'
    · subst hk
      simp only [beq_self_eq_true] at h
      cases h
      exact List.mem_cons_self _ _
    · have : (k == k') = false := beq_false_of_ne hk
      rw [this] at h
      exact List.mem_cons_of_mem _ (ih h)

theorem lookup_map_pair (f : ℕ → ℚ) (idx : List ℕ) (τ : ℕ) (h : τ ∈ idx) :
    (idx.map fun t => (t, f t)).lookup τ = some (f τ) := by
  induction idx with
  | nil => cases h
  | cons a as ih =>
    rw [List.map_cons, List.lookup]
    by_cases hτ : τ = a
    · subst hτ; simp
    · have hb : (τ == a) = false := beq_false_of_ne hτ
      rw [hb]
      exact ih ((List.mem_cons.1 h).resolve_left hτ)

/-! ## Signal lemmas -/

theorem optGT_none_right (x : Option ℚ) : optGT x none = false := by
  cases x <;> rfl

/-- Before row 9 the long rolling average is undefined. -/
theorem rollingMean_long_none (ps : List ℚ) (t : ℕ) (h : t < 9) :
    rollingMeanAt 10 ps t = none := by
  unfold rollingMeanAt
  rw [if_neg]
  rintro ⟨-, h2⟩
  omega

/-- Before row 9 the crossover comparison is `False`, so the signal is
the integer 0. -/
theorem sigAt_eq_zero_of_lt (ps : List ℚ) (t : ℕ) (h : t < 9) :
    sigAt ps t = 0 := by
  unfold sigAt
  rw [show _cfg.2 = 10 from rfl, rollingMean_long_none ps t h,
    optGT_none_right]
  rfl

theorem sigAt_zero_or_one (ps : List ℚ) (t : ℕ) :
    sigAt ps t = 0 ∨ sigAt ps t = 1 := by
  unfold sigAt
  split
  · exact Or.inr rfl
  · exact Or.inl rfl

theorem buyAt_false_of_lt (ps : List ℚ) (t : ℕ) (h : t < 9) :
    buyAt ps t = false := by
  unfold buyAt
  rw [sigAt_eq_zero_of_lt ps t h]
  rfl

theorem sellAt_false_of_lt (ps : List ℚ) (t : ℕ) (h : t < 10) :
    sellAt ps t = false := by
  match t, h with
  | 0, _ =>
    show (sigAt ps 0 == 0 && false) = false
    exact Bool.and_false _
  | t' + 1, h =>
    show (sigAt ps (t' + 1) == 0 && (sigAt ps t' == 1)) = false
    rw [sigAt_eq_zero_of_lt ps t' (by omega)]
    rw [show ((0 : ℤ) == 1) = false from rfl, Bool.and_false]

theorem calculate_signals_getD (ps : List ℚ) (t : ℕ) (h : t < ps.length) :
    (calculate_signals ps).getD t default = mkRow ps t :=
  mapRange_getD (mkRow ps) ps.length t default h

/-- C1 (amended): for every price series, each row before the long
window is fully populated (row index < 9, which covers every row of a
series shorter than the long window 10) has an undefined long average,
but its `signal` is the defined integer 0 and its `buy`/`sell` are the
defined Boolean `false` — the comparisons involving the undefined
average evaluate to false, so no buy or sell fires in those rows. -/
theorem c1_early_rows_defined_zero (ps : List ℚ) (t : ℕ)
    (ht : t < ps.length) (h9 : t < 9) :
    ((calculate_signals ps).getD t default)._y = none ∧
    ((calculate_signals ps).getD t default).signal = 0 ∧
    ((calculate_signals ps).getD t default).buy = false ∧
    ((calculate_signals ps).getD t default).sell = false := by
  rw [calculate_signals_getD ps t ht]
  exact ⟨rollingMean_long_none ps t h9, sigAt_eq_zero_of_lt ps t h9,
    buyAt_false_of_lt ps t h9, sellAt_false_of_lt ps t (by omega)⟩

/-- C6 (amended): `buy` and `sell` are never both true in the same
period, for all inputs; and a `sell` can only fire at a row `t ≥ 10`,
where the prior row's long average is defined.  (A `buy`, by contrast,
can fire at row 9, whose prior row has undefined averages — see the
counterexample.) -/
theorem c6_buy_sell_exclusive (ps : List ℚ) (t : ℕ) (ht : t < ps.length) :
    (((calculate_signals ps).getD t default).buy = true →
      ((calculate_signals ps).getD t default).sell = false) ∧
    (((calculate_signals ps).getD t default).sell = true →
      10 ≤ t ∧ (rollingMeanAt 10 ps (t - 1)).isSome = true) := by
  rw [calculate_signals_getD ps t ht]
  constructor
  · intro hb
    have hb' : buyAt ps t = true := hb
    show sellAt ps t = false
    have h1 : sigAt ps t = 1 := by
      rcases sigAt_zero_or_one ps t with h | h
      · unfold buyAt at hb'
        rw [h] at hb'
        simp at hb'
      · exact h
    unfold sellAt
    rw [h1]
    rw [show ((1 : ℤ) == 0) = false from rfl]
    rfl
  · intro hs
    have hs' : sellAt ps t = true := hs
    match t, ht, hs' with
    | 0, ht, hs' =>
      have : (sigAt ps 0 == 0 && false) = true := hs'
      simp at this
    | t' + 1, ht, hs' =>
      have hr : (sigAt ps (t' + 1) == 0 && (sigAt ps t' == 1)) = true := hs'
      rw [Bool.and_eq_true] at hr
      have h1 : (sigAt ps t' == 1) = true := hr.2
      have h1' : sigAt ps t' = 1 := by
        rcases sigAt_zero_or_one ps t' with h | h
        · rw [h] at h1; cases h1
        · exact h
      have h9 : 9 ≤ t' := by
        by_contra hlt
        rw [sigAt_eq_zero_of_lt ps t' (by omega)] at h1'
        cases h1'
      refine ⟨by omega, ?_⟩
      unfold rollingMeanAt
      rw [if_pos ⟨by omega, by omega⟩]
      rfl

/-! ## Trade-scan lemmas -/

theorem mem_calculate_signals (ps : List ℚ) (r : SignalRow)
    (hr : r ∈ calculate_signals ps) :
    ∃ t, t < ps.length ∧ r = mkRow ps t := by
  obtain ⟨t, ht, hft⟩ := List.mem_map.1 hr
  exact ⟨t, List.mem_range.1 ht, hft.symm⟩

theorem cumprodAux_length (l : List ℚ) :
    ∀ acc, (cumprodAux acc l).length = l.length := by
  induction l with
  | nil => intro acc; rfl
  | cons x xs ih =>
    intro acc
    show (cumprodAux acc (x :: xs)).length = xs.length + 1
    rw [show cumprodAux acc (x :: xs) =
      (acc * x) :: cumprodAux (acc * x) xs from rfl]
    rw [List.length_cons, ih (acc * x)]

theorem tradeScan_no_sell (rows : List SignalRow)
    (h : ∀ r ∈ rows, r.sell = false) :
    ∀ i b ed ep, tradeScan i b ed ep rows = [] := by
  induction rows with
  | nil => intro i b ed ep; rfl
  | cons row rest ih =>
    intro i b ed ep
    have hr : row.sell = false := h row (List.mem_cons_self _ _)
    have hrest : ∀ r ∈ rest, r.sell = false := fun r hm =>
      h r (List.mem_cons_of_mem _ hm)
    simp only [tradeScan]
    split
    · exact ih hrest _ _ _ _
    · split
      · rename_i hcond
        rw [hr] at hcond
        simp at hcond
      · exact ih hrest _ _ _ _

theorem tradeScan_mem_spec (rows : List SignalRow) :
    ∀ i b ed ep, (b = true → ed < i) →
      ∀ tr ∈ tradeScan i b ed ep rows,
        tr.buyIdx < tr.sellIdx ∧ i ≤ tr.sellIdx ∧
        (b = false → i ≤ tr.buyIdx) ∧ (b = true → ed ≤ tr.buyIdx) ∧
        tr.pnl = round2 ((tr.sellPrice - tr.buyPrice) / tr.buyPrice * 100) := by
  induction rows with
  | nil => intro i b ed ep hpre tr htr; cases htr
  | cons row rest ih =>
    intro i b ed ep hpre tr htr
    simp only [tradeScan] at htr
    split at htr
    · rename_i hcond
      have hb : b = false := by
        rcases Bool.and_eq_true _ _ ▸ hcond with ⟨-, hnb⟩
        cases b
        · rfl
        · cases hnb
      obtain ⟨h1, h2, h3, h4, h5⟩ :=
        ih (i + 1) true i row.price (fun _ => by omega) tr htr
      exact ⟨h1, (by omega), (fun _ => by have := h4 rfl; omega),
        (fun hbt => by rw [hb] at hbt; cases hbt), h5⟩
    · split at htr
      · rename_i hcond2
        have hb : b = true := (Bool.and_eq_true _ _ ▸ hcond2).2
        rcases List.mem_cons.1 htr with rfl | htr'
        · refine ⟨hpre hb, le_refl _, ?_, fun _ => le_refl _, rfl⟩
          intro hbf
          rw [hbf] at hb
          cases hb
        · obtain ⟨h1, h2, h3, h4, h5⟩ :=
            ih (i + 1) false ed ep (fun habs => by cases habs) tr htr'
          have hbuy := h3 rfl
          exact ⟨h1, (by omega), (fun _ => by omega),
            (fun _ => by have := hpre hb; omega), h5⟩
      · obtain ⟨h1, h2, h3, h4, h5⟩ :=
          ih (i + 1) b ed ep (fun hbt => by have := hpre hbt; omega) tr htr
        exact ⟨h1, (by omega), (fun hbf => by have := h3 hbf; omega),
          (fun hbt => h4 hbt), h5⟩

theorem tradeScan_chain (rows : List SignalRow) :
    ∀ i b ed ep, (b = true → ed < i) →
      List.Chain' (fun a c => a.sellIdx < c.buyIdx)
        (tradeScan i b ed ep rows) := by
  induction rows with
  | nil => intro i b ed ep hpre; exact List.chain'_nil
  | cons row rest ih =>
    intro i b ed ep hpre
    simp only [tradeScan]
    split
    · exact ih (i + 1) true i row.price (fun _ => by omega)
    · split
      · apply List.chain'_cons'.2
        constructor
        · intro y hy
          have hmem : y ∈ tradeScan (i + 1) false ed ep rest :=
            List.mem_of_mem_head? hy
          obtain ⟨-, -, h3, -, -⟩ :=
            tradeScan_mem_spec rest (i + 1) false ed ep
              (fun habs => by cases habs) y hmem
          have := h3 rfl
          show i < y.buyIdx
          omega
        · exact ih (i + 1) false ed ep (fun habs => by cases habs)
      · exact ih (i + 1) b ed ep (fun hbt => by have := hpre hbt; omega)

/-- C3 (amended): with every input shorter than 11 observations the
Portfolio Backtester skips every instrument and returns the explicit
empty result for all three outputs without raising; the
Single-Instrument Backtester, by contrast, has no such guard — on a
series shorter than 11 it still computes, returning return and
cumulative series of the same length as the input (not empty ones)
together with an empty trade list, and does not raise. -/
theorem c3_insufficient_data :
    (∀ d : List (String × PriceSeries), (∀ i ∈ d, i.2.length < 11) →
      backtest_portfolio d = ⟨[], [], []⟩) ∧
    (∀ ps : List ℚ, ps.length < 11 →
      (backtest_stock ps).returns.length = ps.length ∧
      (backtest_stock ps).cumulative.length = ps.length ∧
      (backtest_stock ps).trades = []) := by
  constructor
  · intro d hd
    have hq : qualifying d = [] := by
      rw [qualifying, List.filter_eq_nil_iff]
      intro i hi
      have := hd i hi
      simp only [decide_eq_true_eq]
      omega
    rw [backtest_portfolio, hq]
    rfl
  · intro ps hlen
    refine ⟨?_, ?_, ?_⟩
    · show (strategyReturns ps).length = ps.length
      rw [strategyReturns, List.length_map, List.length_range]
    · show (cumulativeOf (strategyReturns ps)).length = ps.length
      rw [cumulativeOf, cumprod, cumprodAux_length, List.length_map,
        strategyReturns, List.length_map, List.length_range]
    · show tradeScan 0 false 0 0 (calculate_signals ps) = []
      apply tradeScan_no_sell
      intro r hr
      obtain ⟨t, ht, rfl⟩ := mem_calculate_signals ps r hr
      exact sellAt_false_of_lt ps t (by omega)

/-- C5 (amended): every closed trade recorded by the Single-Instrument
Backtester has its exit row strictly after its entry row, and its
recorded percentage return equals `(exit_price - entry_price) /
entry_price * 100` rounded to 2 decimal places (the source applies
`round(_pnl, 2)` when recording, so the stored value differs from the
exact ratio whenever that ratio needs more than 2 decimals); successive
trades do not overlap (the next entry is strictly after the previous
exit, i.e. at most one position is open at a time, and buy signals
while in position are ignored); only realized round trips appear in the
list — it is built exclusively by `sell`-closing appends, so an open
position at series end contributes nothing. -/
theorem c5_trade_invariants (ps : List ℚ) :
    (∀ tr ∈ (backtest_stock ps).trades,
      tr.buyIdx < tr.sellIdx ∧
      tr.pnl = round2 ((tr.sellPrice - tr.buyPrice) / tr.buyPrice * 100)) ∧
    List.Chain' (fun a c => a.sellIdx < c.buyIdx)
      (backtest_stock ps).trades := by
  constructor
  · intro tr htr
    obtain ⟨h1, -, -, -, h5⟩ :=
      tradeScan_mem_spec (calculate_signals ps) 0 false 0 0
        (fun habs => by cases habs) tr htr
    exact ⟨h1, h5⟩
  · exact tradeScan_chain (calculate_signals ps) 0 false 0 0
      (fun habs => by cases habs)

/-! ## Cumulative-product lemmas -/

theorem cumprod_getD_zero (l : List ℚ) (h : l ≠ []) :
    (cumprod l).getD 0 1 = l.getD 0 0 := by
  obtain ⟨x, xs, rfl⟩ := List.exists_cons_of_ne_nil h
  show (1 : ℚ) * x = x
  exact one_mul x

theorem cumprodAux_succ (l : List ℚ) :
    ∀ acc u, u + 1 < l.length →
      (cumprodAux acc l).getD (u + 1) 1 =
        (cumprodAux acc l).getD u 1 * l.getD (u + 1) 0 := by
  induction l with
  | nil => intro acc u h; simp at h
  | cons x xs ih =>
    intro acc u h
    cases u with
    | zero =>
      cases xs with
      | nil => rw [List.length_cons, List.length_nil] at h; omega
      | cons y ys => rfl
    | succ v =>
      show (cumprodAux (acc * x) xs).getD (v + 1) 1 =
        (cumprodAux (acc * x) xs).getD v 1 * xs.getD (v + 1) 0
      refine ih (acc * x) v ?_
      rw [List.length_cons] at h
      omega

theorem cumprodAux_pos (l : List ℚ) :
    ∀ acc, 0 < acc → (∀ x ∈ l, 0 < x) →
      ∀ t, t < l.length → 0 < (cumprodAux acc l).getD t 1 := by
  induction l with
  | nil => intro acc _ _ t ht; simp at ht
  | cons x xs ih =>
    intro acc hacc hall t ht
    have hx : 0 < x := hall x (List.mem_cons_self _ _)
    cases t with
    | zero => exact mul_pos hacc hx
    | succ u =>
      show 0 < (cumprodAux (acc * x) xs).getD u 1
      refine ih (acc * x) (mul_pos hacc hx)
        (fun y hy => hall y (List.mem_cons_of_mem _ hy)) u ?_
      rw [List.length_cons] at ht
      omega

theorem cumprod_leading_one (l : List ℚ) :
    ∀ t, t < l.length → (∀ i, i ≤ t → l.getD i 0 = 1) →
      (cumprod l).getD t 1 = 1 := by
  induction l with
  | nil => intro t ht _; simp at ht
  | cons x xs ih =>
    intro t ht hpre
    have hx : x = 1 := hpre 0 (Nat.zero_le t)
    cases t with
    | zero =>
      show (1 : ℚ) * x = 1
      rw [hx, one_mul]
    | succ u =>
      show (cumprodAux (1 * x) xs).getD u 1 = 1
      have h1x : (1 : ℚ) * x = 1 := by rw [hx, one_mul]
      rw [h1x]
      show (cumprod xs).getD u 1 = 1
      refine ih u ?_ ?_
      · rw [List.length_cons] at ht; omega
      · intro i hi
        exact hpre (i + 1) (by omega)

/-- C4 (confirmed): for every period `t ≥ 1` inside the series, the
strategy return at `t` is `(price[t]/price[t-1] - 1) * position[t]`
where `position[t]` is the prior period's signal; and the
cumulative-growth series is the running product of
`(1 + strategy_return)`, with a missing strategy return compounded as
zero (`.getD 0` below is the source's `fillna(0)`). -/
theorem c4_strategy_return_and_compounding (ps : List ℚ) (t : ℕ)
    (h1 : 1 ≤ t) (ht : t < ps.length) :
    (backtest_stock ps).returns.getD t none =
      some ((ps.getD t 0 / ps.getD (t - 1) 0 - 1) * (sigAt ps (t - 1) : ℚ)) ∧
    (backtest_stock ps).cumulative.getD 0 1 =
      1 + ((backtest_stock ps).returns.getD 0 none).getD 0 ∧
    (∀ u, u + 1 < ps.length →
      (backtest_stock ps).cumulative.getD (u + 1) 1 =
        (backtest_stock ps).cumulative.getD u 1 *
          (1 + ((backtest_stock ps).returns.getD (u + 1) none).getD 0)) := by
  have hlenr : (strategyReturns ps).length = ps.length := by
    rw [strategyReturns, List.length_map, List.length_range]
  have hlenm : ((strategyReturns ps).map fun r =>
      1 + r.getD 0).length = ps.length := by
    rw [List.length_map, hlenr]
  refine ⟨?_, ?_, ?_⟩
  · obtain ⟨t', rfl⟩ : ∃ t', t = t' + 1 := ⟨t - 1, by omega⟩
    show (strategyReturns ps).getD (t' + 1) none = _
    rw [strategyReturns, mapRange_getD _ _ _ _ ht]
    show some ((sigAt ps t' : ℚ) *
      (ps.getD (t' + 1) 0 / ps.getD t' 0 - 1)) = _
    exact congrArg some (mul_comm _ _)
  · show (cumulativeOf (strategyReturns ps)).getD 0 1 = _
    rw [cumulativeOf, cumprod_getD_zero _ (by
      intro habs
      rw [habs] at hlenm
      rw [List.length_nil] at hlenm
      omega)]
    rw [getD_map_of_lt _ _ _ _ none (by rw [hlenr]; omega)]
    rfl
  · intro u hu
    show (cumulativeOf (strategyReturns ps)).getD (u + 1) 1 = _
    rw [cumulativeOf, cumprod, cumprodAux_succ _ 1 u (by rw [hlenm]; omega)]
    rw [getD_map_of_lt _ _ _ _ none (by rw [hlenr]; omega)]
    rfl

/-- C7 (amended): for every return series all of whose defined entries
are strictly greater than -100% (undefined entries are compounded as 0
by `fillna(0)`, written `.getD 0` below), the cumulative-growth series
`(1 + returns.fillna(0)).cumprod()` shared by both backtesters is
positive at every period, and equals 1 at every period up to and
including the one immediately preceding the first defined return.  As
stated with the weak bound "greater than or equal to -100%" the claim
fails: a period return of exactly -100% drives the cumulative product
to 0, which is not positive — see the counterexample. -/
theorem c7_cumulative_positive (rs : List (Option ℚ))
    (h : ∀ r ∈ rs, -1 < r.getD 0) :
    (∀ t, t < rs.length → 0 < (cumulativeOf rs).getD t 1) ∧
    (∀ t, t < rs.length → (∀ i, i ≤ t → rs.getD i (some 0) = none) →
      (cumulativeOf rs).getD t 1 = 1) ∧
    (∀ ps : List ℚ, (backtest_stock ps).cumulative =
      cumulativeOf ((backtest_stock ps).returns)) := by
  refine ⟨?_, ?_, fun ps => rfl⟩
  · intro t ht
    refine cumprodAux_pos _ 1 one_pos ?_ t ?_
    · intro x hx
      obtain ⟨r, hr, rfl⟩ := List.mem_map.1 hx
      have := h r hr
      linarith
    · rw [List.length_map]; exact ht
  · intro t ht hnone
    refine cumprod_leading_one _ t ?_ ?_
    · rw [List.length_map]; exact ht
    · intro i hi
      rw [getD_map_of_lt _ _ _ _ (some 0) (by omega)]
      rw [hnone i hi]
      show (1 : ℚ) + 0 = 1
      exact add_zero 1

/-! ## Portfolio lemmas -/

theorem posAt_cases (ps : List ℚ) (t : ℕ) :
    posAt ps t = none ∨ posAt ps t = some 0 ∨ posAt ps t = some 1 := by
  match t with
  | 0 => exact Or.inl rfl
  | t' + 1 =>
    rcases sigAt_zero_or_one ps t' with h | h
    · refine Or.inr (Or.inl ?_)
      show some (sigAt ps t') = some 0
      rw [h]
    · refine Or.inr (Or.inr ?_)
      show some (sigAt ps t') = some 1
      rw [h]

theorem lookupVal_instPositions (s : PriceSeries) (τ : ℕ) :
    lookupVal (instPositions s) τ = none ∨
    lookupVal (instPositions s) τ = some 0 ∨
    lookupVal (instPositions s) τ = some 1 := by
  rw [lookupVal]
  cases hl : (instPositions s).lookup τ with
  | none => exact Or.inl rfl
  | some v =>
    show v = none ∨ v = some 0 ∨ v = some 1
    have hmem := lookup_mem hl
    rw [instPositions] at hmem
    have hv := (List.of_mem_zip hmem).2
    obtain ⟨t, -, rfl⟩ := List.mem_map.1 hv
    rcases posAt_cases (s.map Prod.snd) t with h | h | h
    · rw [h]; exact Or.inl rfl
    · rw [h]
      refine Or.inr (Or.inl ?_)
      show some ((0 : ℤ) : ℚ) = some 0
      rw [Int.cast_zero]
    · rw [h]
      refine Or.inr (Or.inr ?_)
      show some ((1 : ℤ) : ℚ) = some 1
      rw [Int.cast_one]

theorem wrCell_eq_zero (i : String × PriceSeries) (τ : ℕ)
    (h : lookupVal (instPositions i.2) τ ≠ some 1) : wrCell i τ = 0 := by
  rw [wrCell]
  rcases lookupVal_instPositions i.2 τ with h0 | h0 | h0
  · rw [h0]; rfl
  · rw [h0]
    cases hr : lookupVal (inst_mr i.2) τ with
    | none => rfl
    | some r =>
      show (0 : ℚ) * r = 0
      exact zero_mul r
  · exact absurd h0 h

theorem backtest_portfolio_returns (d : List (String × PriceSeries))
    (h : (qualifying d).isEmpty = false) :
    (backtest_portfolio d).portfolio_returns =
      (portIndex d).map fun τ => (τ, portTermSum d τ / 30) := by
  rw [backtest_portfolio, h]
  rfl

theorem portIndex_of_qualifying_nil (d : List (String × PriceSeries))
    (h : qualifying d = []) : portIndex d = [] := by
  rw [portIndex, h]
  rfl

/-- C2 (confirmed): for every timestamp of the common index of the
portfolio tables, the portfolio return equals the sum over qualifying
instruments of `position * raw return` — with any missing term
(`NaN` position or return, or absent timestamp) treated as zero —
divided by the fixed divisor 30 (never by the active count); and when
no instrument is active at that timestamp (no defined position equal to
1) the portfolio return is exactly 0 regardless of the raw returns. -/
theorem c2_portfolio_return_formula (d : List (String × PriceSeries))
    (τ : ℕ) (hτ : τ ∈ portIndex d) :
    (backtest_portfolio d).portfolio_returns.lookup τ =
      some (portTermSum d τ / 30) ∧
    ((∀ i ∈ qualifying d, lookupVal (instPositions i.2) τ ≠ some 1) →
      (backtest_portfolio d).portfolio_returns.lookup τ = some 0) := by
  have hne : (qualifying d).isEmpty = false := by
    cases hq : qualifying d with
    | nil =>
      rw [portIndex_of_qualifying_nil d hq] at hτ
      cases hτ
    | cons a as => rfl
  have hformula : (backtest_portfolio d).portfolio_returns.lookup τ =
      some (portTermSum d τ / 30) := by
    rw [backtest_portfolio_returns d hne]
    exact lookup_map_pair (fun τ => portTermSum d τ / 30) (portIndex d) τ hτ
  refine ⟨hformula, fun hinactive => ?_⟩
  have hzero : portTermSum d τ = 0 := by
    rw [portTermSum]
    refine List.sum_eq_zero ?_
    intro x hx
    obtain ⟨i, hi, rfl⟩ := List.mem_map.1 hx
    exact wrCell_eq_zero i τ (hinactive i hi)
  rw [hformula, hzero, zero_div]

/-! ## Metrics lemmas -/

theorem foldl_optMin_le (l : List (Option ℚ)) :
    ∀ a : ℚ, ∃ m, l.foldl optMin (some a) = some m ∧ m ≤ a := by
  induction l with
  | nil => intro a; exact ⟨a, rfl, le_refl a⟩
  | cons x xs ih =>
    intro a
    cases x with
    | none => exact ih a
    | some b =>
      obtain ⟨m, hm, hle⟩ := ih (min a b)
      exact ⟨m, hm, le_trans hle (min_le_left a b)⟩

theorem foldl_optMin_zero (l : List (Option ℚ)) :
    (∀ e ∈ l, e = none ∨ e = some 0) →
      l.foldl optMin (some 0) = some 0 := by
  induction l with
  | nil => intro _; rfl
  | cons x xs ih =>
    intro h
    have hxs : ∀ e ∈ xs, e = none ∨ e = some 0 := fun e he =>
      h e (List.mem_cons_of_mem _ he)
    rcases h x (List.mem_cons_self _ _) with rfl | rfl
    · exact ih hxs
    · show xs.foldl optMin (optMin (some 0) (some 0)) = some 0
      rw [show optMin (some 0) (some 0) = some 0 by
        show some (min (0 : ℚ) 0) = some 0
        rw [min_self]]
      exact ih hxs

theorem zipWith_fun_self {α β : Type} (f : α → α → β) (l : List α) :
    List.zipWith f l l = l.map fun c => f c c := by
  induction l with
  | nil => rfl
  | cons x xs ih =>
    show f x x :: List.zipWith f xs xs = f x x :: xs.map fun c => f c c
    rw [ih]

theorem cummaxAux_chain (xs : List ℚ) :
    ∀ x, List.Chain' (· ≤ ·) (x :: xs) → cummaxAux x xs = xs := by
  induction xs with
  | nil => intro x _; rfl
  | cons y ys ih =>
    intro x h
    have hxy : x ≤ y := (List.chain'_cons.1 h).1
    show max x y :: cummaxAux (max x y) ys = y :: ys
    rw [max_eq_right hxy]
    rw [ih y (List.chain'_cons.1 h).2]

theorem cummax_chain (l : List ℚ) (h : List.Chain' (· ≤ ·) l) :
    cummax l = l := by
  cases l with
  | nil => rfl
  | cons x xs =>
    show x :: cummaxAux x xs = x :: xs
    rw [cummaxAux_chain xs x h]

/-- C8 (amended): for every non-empty (dropna'd) return series whose
first return is not exactly -100%, the maximum drawdown — the minimum
over time of `(cumulative_growth - running_peak)/running_peak` — is a
defined value ≤ 0; and it equals exactly 0 whenever the
cumulative-growth series is monotonically non-decreasing.  As stated
over *every* non-empty return series the claim fails: a first return of
exactly -100% makes every drawdown cell the indeterminate `0/0`
(`NaN`), so the minimum is `NaN`, not a number ≤ 0 — see the
counterexample. -/
theorem c8_mdd_nonpositive (l : List ℚ) (hne : l ≠ [])
    (h0 : 1 + l.headI ≠ 0) :
    (∃ m, mddOf l = some m ∧ m ≤ 0) ∧
    (List.Chain' (· ≤ ·) (cumOf l) → mddOf l = some 0) := by
  obtain ⟨x, xs, rfl⟩ := List.exists_cons_of_ne_nil hne
  have hc0 : (1 : ℚ) * (1 + x) ≠ 0 := by
    rw [one_mul]
    exact h0
  have hcum : cumOf (x :: xs) =
      (1 * (1 + x)) :: cumprodAux (1 * (1 + x)) (xs.map fun r => 1 + r) := rfl
  have hf0 : (if (1 * (1 + x) : ℚ) = 0 then none else
      some ((1 * (1 + x) - 1 * (1 + x)) / (1 * (1 + x)))) = some (0 : ℚ) := by
    rw [if_neg hc0, sub_self, zero_div]
  constructor
  · -- the head drawdown cell is `some 0`, and a NaN-skipping minimum of
    -- a list with head `some 0` is defined and ≤ 0
    have hdd : drawdownList (x :: xs) =
        some 0 :: List.zipWith
          (fun c p => if p = 0 then none else some ((c - p) / p))
          (cumprodAux (1 * (1 + x)) (xs.map fun r => 1 + r))
          (cummaxAux (1 * (1 + x))
            (cumprodAux (1 * (1 + x)) (xs.map fun r => 1 + r))) := by
      rw [drawdownList, hcum]
      rw [show cummax ((1 * (1 + x)) ::
          cumprodAux (1 * (1 + x)) (xs.map fun r => 1 + r)) =
        (1 * (1 + x)) :: cummaxAux (1 * (1 + x))
          (cumprodAux (1 * (1 + x)) (xs.map fun r => 1 + r)) from rfl]
      rw [List.zipWith_cons_cons]
      congr 1
    rw [mddOf, hdd, listMin, List.foldl_cons]
    exact foldl_optMin_le _ 0
  · intro hmono
    have hdd2 : drawdownList (x :: xs) =
        some 0 :: ((cumprodAux (1 * (1 + x)) (xs.map fun r => 1 + r)).map
          fun c => if c = 0 then none else some ((c - c) / c)) := by
      rw [drawdownList, cummax_chain _ hmono, zipWith_fun_self, hcum,
        List.map_cons]
      congr 1
    rw [mddOf, hdd2, listMin, List.foldl_cons]
    apply foldl_optMin_zero
    intro e he
    obtain ⟨c, -, rfl⟩ := List.mem_map.1 he
    rcases eq_or_ne c 0 with rfl | hc
    · exact Or.inl (if_pos rfl)
    · refine Or.inr ?_
      rw [if_neg hc, sub_self, zero_div]

theorem mean_replicate (n : ℕ) (a : ℚ) (hn : n ≠ 0) :
    mean (List.replicate n a) = a := by
  rw [mean, List.sum_replicate, List.length_replicate, nsmul_eq_mul]
  exact mul_div_cancel_left₀ a (Nat.cast_ne_zero.2 hn)

/-- C9 (confirmed): for every non-empty (dropna'd) return series, the
Sharpe-like ratio is exactly the fallback 0 whenever the series has
zero variance (all returns equal — the sample std is then 0, or NaN for
a single observation, and `std > 0` is false either way); and whenever
the sample variance `v` is positive (equivalently `std = sqrt v > 0`)
it is the value `(mean / sqrt v) * sqrt 12` of
`mean(return)/stddev(return) * sqrt(12)`. -/
theorem c9_sharpe_zero_variance (l : List ℚ) (hne : l ≠ []) :
    ((∀ x ∈ l, x = l.headI) → sharpeOf l = SharpeVal.zero) ∧
    (∀ v : ℚ, sampleVar l = some v → 0 < v →
      sharpeOf l = SharpeVal.ratio (mean l) v) := by
  constructor
  · intro hall
    rw [sharpeOf]
    rcases Nat.lt_or_ge l.length 2 with hlen | hlen
    · rw [show sampleVar l = none from by rw [sampleVar, if_pos (by omega)]]
    · have hrep : l = List.replicate l.length l.headI :=
        List.eq_replicate_length.2 hall
      have hmean : mean l = l.headI := by
        conv_lhs => rw [hrep]
        exact mean_replicate _ _ (by omega)
      have hvar : sampleVar l = some 0 := by
        rw [sampleVar, if_neg (by omega)]
        congr 1
        have hmap : (l.map fun x => (x - mean l) ^ 2) =
            List.replicate (l.map fun x => (x - mean l) ^ 2).length 0 := by
          refine List.eq_replicate_length.2 ?_
          intro b hb
          obtain ⟨x, hx, rfl⟩ := List.mem_map.1 hb
          rw [hall x hx, hmean, sub_self]
          exact zero_pow (by omega)
        rw [hmap, List.sum_replicate, smul_zero, zero_div]
      rw [hvar]
      show (if (0 : ℚ) < 0 then SharpeVal.ratio (mean l) 0
        else SharpeVal.zero) = SharpeVal.zero
      rw [if_neg (lt_irrefl 0)]
  · intro v hv hv0
    rw [sharpeOf, hv]
    show (if 0 < v then SharpeVal.ratio (mean l) v
      else SharpeVal.zero) = SharpeVal.ratio (mean l) v
    rw [if_pos hv0]

/-- C10 (confirmed): for every return series whose entries are all
undefined (which includes the empty series), `dropna` leaves nothing,
so the Metrics Calculator takes its length-0 guard branch and returns
the empty mapping `{}` (modelled as `none`) — no named scalars at all —
whatever the benchmark argument is, and without raising. -/
theorem c10_empty_metrics (rs : List (Option ℚ))
    (bm : Option (List (Option ℚ))) (h : ∀ r ∈ rs, r = none) :
    calculate_metrics rs bm = none := by
  have hdrop : dropna rs = [] := by
    rw [dropna, List.filterMap_eq_nil_iff]
    intro p hp
    rw [h p.2 (List.snd_mem_of_mem_enum hp)]
    rfl
  rw [calculate_metrics.eq_def, hdrop]
  rfl

/-! ## Concrete evaluations: counterexamples and witnesses

The `Rat` arithmetic operations are `@[irreducible]` upstream, which
blocks `decide`-style evaluation; they are made locally semireducible
here so concrete rational computations reduce. -/

set_option allowUnsafeReducibility true

section ConcreteEvaluations

attribute [local semireducible] Rat.mul Rat.add Rat.sub Rat.inv

/-- C1 counterexample: for the 3-month series (shorter than the long
window), every row's long average is undefined, yet `signal` is the
defined integer 0 and `buy`/`sell` the defined Boolean `false` in every
period — refuting the claim that `signal`/`buy`/`sell` are undefined
(not 0/false) there. -/
theorem c1_cex :
    (calculate_signals [100, 100, 100]).map SignalRow.signal = [0, 0, 0] ∧
    (calculate_signals [100, 100, 100]).map SignalRow.buy =
      [false, false, false] ∧
    (calculate_signals [100, 100, 100]).map SignalRow.sell =
      [false, false, false] ∧
    (calculate_signals [100, 100, 100]).map SignalRow._y =
      [none, none, none] := by
  decide

/-- Witness for C1: the amended theorem applied at the 3-month series,
row 0. -/
theorem c1_witness :
    ((calculate_signals [100, 100, 100]).getD 0 default)._y = none ∧
    ((calculate_signals [100, 100, 100]).getD 0 default).signal = 0 ∧
    ((calculate_signals [100, 100, 100]).getD 0 default).buy = false ∧
    ((calculate_signals [100, 100, 100]).getD 0 default).sell = false :=
  c1_early_rows_defined_zero [100, 100, 100] 0 (by decide) (by decide)

/-- Witness for C2: one qualifying 11-month instrument; at timestamp 9
its position (the row-8 signal) is 0, so the portfolio return is
exactly 0. -/
theorem c2_witness :
    (backtest_portfolio [("A",
      [(0, 100), (1, 100), (2, 100), (3, 100), (4, 100), (5, 100), (6, 100),
       (7, 100), (8, 100), (9, 200), (10, 220)])]).portfolio_returns.lookup 9 =
      some 0 :=
  (c2_portfolio_return_formula
    [("A", [(0, 100), (1, 100), (2, 100), (3, 100), (4, 100), (5, 100),
      (6, 100), (7, 100), (8, 100), (9, 200), (10, 220)])] 9
    (by decide)).2 (by decide)

/-- C3 counterexample: on the 1-month series (shorter than the minimum
11) the Single-Instrument Backtester still attempts the computation:
its return series is `[NaN]`, of length 1 — not the empty "no result"
series the claim requires. -/
theorem c3_cex :
    (backtest_stock [100]).returns = [none] ∧
    (backtest_stock [100]).returns ≠ [] := by
  decide

/-- Witness for C3: the amended theorem applied to a one-instrument
dict with a 1-month series, and to the 1-month single-instrument
input. -/
theorem c3_witness :
    backtest_portfolio [("A", [(0, 100)])] = ⟨[], [], []⟩ ∧
    (backtest_stock [100]).trades = [] :=
  ⟨c3_insufficient_data.1 [("A", [(0, 100)])] (by decide),
   (c3_insufficient_data.2 [100] (by decide)).2.2⟩

/-- Witness for C4: the strategy-return formula at `t = 1` of a
2-month series (position = row-0 signal = 0, monthly return 10%). -/
theorem c4_witness :
    (backtest_stock [100, 110]).returns.getD 1 none =
      some ((([100, 110] : List ℚ).getD 1 0 /
        ([100, 110] : List ℚ).getD 0 0 - 1) * (sigAt [100, 110] 0 : ℚ)) :=
  (c4_strategy_return_and_compounding [100, 110] 1 (by decide) (by decide)).1

/-- C5 counterexample: the 12-month series produces exactly one trade
(entry row 9 at 300, exit row 11 at 80); its recorded percentage
return is `round(-220/3, 2) = -73.33`, which differs from the exact
value `(80 - 300)/300 * 100 = -220/3` — so the claim's unrounded
formula does not hold for the recorded value. -/
theorem c5_cex :
    (backtest_stock
        [100, 100, 100, 100, 100, 100, 100, 100, 100, 300, 150, 80]).trades =
      [{ buyIdx := 9, sellIdx := 11, buyPrice := 300, sellPrice := 80,
         pnl := -7333 / 100 }] ∧
    (-7333 / 100 : ℚ) ≠ (80 - 300) / 300 * 100 := by
  decide

/-- Witness for C5: the amended theorem applied to that concrete trade
of the 12-month series. -/
theorem c5_witness :
    (9 : ℕ) < 11 ∧ (-7333 / 100 : ℚ) = round2 ((80 - 300) / 300 * 100) :=
  (c5_trade_invariants
    [100, 100, 100, 100, 100, 100, 100, 100, 100, 300, 150, 80]).1
    { buyIdx := 9, sellIdx := 11, buyPrice := 300, sellPrice := 80,
      pnl := -7333 / 100 } (by decide)

/-- C6 counterexample: on the 10-month series `[100 × 9, 200]` a `buy`
fires at row 9 even though row 8 (the prior period) has an undefined
long average — its signal is "undefined" in the spec's sense (the code
computes it as 0), refuting "neither buy nor sell fires in a period
whose prior-period signal is undefined". -/
theorem c6_cex :
    ((calculate_signals
        [100, 100, 100, 100, 100, 100, 100, 100, 100, 200]).getD 9
      default).buy = true ∧
    ((calculate_signals
        [100, 100, 100, 100, 100, 100, 100, 100, 100, 200]).getD 8
      default)._y = none := by
  decide

/-- Witness for C6: the amended theorem applied at row 9 of the
10-month series. -/
theorem c6_witness :
    (((calculate_signals
        [100, 100, 100, 100, 100, 100, 100, 100, 100, 200]).getD 9
      default).buy = true →
      ((calculate_signals
          [100, 100, 100, 100, 100, 100, 100, 100, 100, 200]).getD 9
        default).sell = false) ∧
    (((calculate_signals
        [100, 100, 100, 100, 100, 100, 100, 100, 100, 200]).getD 9
      default).sell = true →
      10 ≤ 9 ∧ (rollingMeanAt 10
        [100, 100, 100, 100, 100, 100, 100, 100, 100, 200]
        (9 - 1)).isSome = true) :=
  c6_buy_sell_exclusive [100, 100, 100, 100, 100, 100, 100, 100, 100, 200] 9
    (by decide)

/-- C7 counterexample: the 11-month series `[100 × 9, 200, 0]` yields a
strategy-return series whose defined entries are all ≥ -100% (the last
one is exactly -100%), yet the cumulative-growth value at period 10 is
0, which is not positive — the claim's weak bound "≥ -100%" fails. -/
theorem c7_cex :
    (∀ r ∈ (backtest_stock
        [100, 100, 100, 100, 100, 100, 100, 100, 100, 200, 0]).returns,
      (-1 : ℚ) ≤ r.getD 0) ∧
    (backtest_stock
        [100, 100, 100, 100, 100, 100, 100, 100, 100, 200,
          0]).cumulative.getD 10 1 = 0 := by
  decide

/-- Witness for C7: the amended theorem applied to the return series
`[NaN, 0.5]`, whose defined entries are strictly above -100%. -/
theorem c7_witness :
    (∀ t, t < ([none, some (1 / 2)] : List (Option ℚ)).length →
      0 < (cumulativeOf [none, some (1 / 2)]).getD t 1) ∧
    (∀ t, t < ([none, some (1 / 2)] : List (Option ℚ)).length →
      (∀ i, i ≤ t →
        ([none, some (1 / 2)] : List (Option ℚ)).getD i (some 0) = none) →
      (cumulativeOf [none, some (1 / 2)]).getD t 1 = 1) ∧
    (∀ ps : List ℚ, (backtest_stock ps).cumulative =
      cumulativeOf ((backtest_stock ps).returns)) :=
  c7_cumulative_positive [none, some (1 / 2)] (by decide)

/-- C8 counterexample: for the non-empty return series `[-1]` (a single
-100% return) every drawdown cell is the indeterminate `0/0`, so the
maximum drawdown is `NaN` (`none`) — not a value ≤ 0; the populated
metrics dict records `NaN` under the MDD key. -/
theorem c8_cex :
    mddOf [-1] = none ∧
    (calculate_metrics [some (-1)] none).isSome = true ∧
    Option.bind (calculate_metrics [some (-1)] none) Metrics.mddPct =
      none := by
  decide

/-- Witness for C8: the amended theorem applied to the return series
`[0.1, 0, 0.1]`, whose cumulative growth is monotonically
non-decreasing, giving a maximum drawdown of exactly 0. -/
theorem c8_witness : mddOf [1 / 10, 0, 1 / 10] = some 0 :=
  (c8_mdd_nonpositive [1 / 10, 0, 1 / 10] (by decide) (by decide)).2
    (by
      have h : cumOf [1 / 10, 0, 1 / 10] = [11 / 10, 11 / 10, 121 / 100] := by
        decide
      rw [h]
      exact List.chain'_cons.2 ⟨by decide,
        List.chain'_cons.2 ⟨by decide, List.chain'_singleton _⟩⟩)

/-- Witness for C9: the constant return series `[0.01, 0.01]` (zero
variance) gets a Sharpe-like ratio of exactly 0. -/
theorem c9_witness : sharpeOf [1 / 100, 1 / 100] = SharpeVal.zero :=
  (c9_sharpe_zero_variance [1 / 100, 1 / 100] (by decide)).1 (by decide)

/-- Witness for C10: an all-undefined return series (with a benchmark
supplied) yields the empty metrics mapping. -/
theorem c10_witness :
    calculate_metrics [none, none] (some [some 1]) = none :=
  c10_empty_metrics [none, none] (some [some 1]) (by decide)

end ConcreteEvaluations
